import Mathlib

/-!
Verification of the contextual-anchor subsystem of the `agent` crate.

This file shallowly embeds three source files:
* `crates/agent/src/contextual_anchor.rs` (anchor model and validation),
* `crates/agent/src/tools/find_references_tool.rs` (anchor resolution and the
  find-references orchestrator),
* `crates/agent/src/outline.rs` (content selector and outline renderer).

Rust strings are modelled as their UTF-8 byte sequences (`List Nat`), so that
all offsets appearing in the source (which are byte offsets into `str` values)
keep their exact meaning.  Machine integers (`usize`, `u32`) are modelled as
`Nat`; the only subtraction the source performs is `saturating_sub`, which is
`Nat` subtraction.
-/

set_option maxRecDepth 10000

/-- UTF-8 encoding of a single character, as a list of byte values.
This mirrors the encoding used by Rust `String` / Lean `String.utf8ByteSize`. -/
def utf8EncodeChar (c : Char) : List Nat :=
  let v := c.toNat
  if v < 0x80 then [v]
  else if v < 0x800 then [0xC0 + v / 0x40, 0x80 + v % 0x40]
  else if v < 0x10000 then [0xE0 + v / 0x1000, 0x80 + v / 0x40 % 0x40, 0x80 + v % 0x40]
  else [0xF0 + v / 0x40000, 0x80 + v / 0x1000 % 0x40, 0x80 + v / 0x40 % 0x40, 0x80 + v % 0x40]

/-- The UTF-8 byte sequence of a Rust `String`/`str` value. -/
def utf8Bytes (s : String) : List Nat :=
  (s.data.map utf8EncodeChar).flatten

/-- Whether a byte value is a UTF-8 continuation byte (`0x80 ≤ b < 0xC0`).
Rust's `str::is_char_boundary` tests exactly this predicate. -/
def contByte (b : Nat) : Bool :=
  0x80 ≤ b && b < 0xC0

/-- Byte length of the UTF-8 character whose first (lead) byte is `b`. -/
def charLen (b : Nat) : Nat :=
  if b < 0x80 then 1 else if b < 0xE0 then 2 else if b < 0xF0 then 3 else 4

/-- Model of Rust `str::is_char_boundary` on the byte sequence `t`:
`0` and `t.length` are boundaries, an interior index is a boundary iff the
byte there is not a continuation byte, and indices past the end are not
boundaries. -/
def isCharBoundary (t : List Nat) (i : Nat) : Bool :=
  if i = 0 then true
  else if i = t.length then true
  else if i < t.length then !contByte (t.getD i 0)
  else false

/-- The byte list is a concatenation of well-formed UTF-8 character units:
each unit is a lead byte followed by `charLen` minus one continuation bytes.
Every byte sequence produced from a Rust `String` satisfies this. -/
inductive ValidUtf8 : List Nat → Prop
  | nil : ValidUtf8 []
  | cons (b : Nat) (tail rest : List Nat) :
      contByte b = false →
      tail.length = charLen b - 1 →
      (∀ x ∈ tail, contByte x = true) →
      ValidUtf8 rest →
      ValidUtf8 (b :: (tail ++ rest))

/-- Model of Rust `str::find` with a string pattern: the byte offset of the
leftmost occurrence of `needle` in `hay`, or `none`.otherwise.
(An empty pattern matches at offset `0`, as in Rust.) -/
def findSub (hay needle : List Nat) : Option Nat :=
  if needle.isPrefixOf hay then some 0
  else
    match hay with
    | [] => none
    | _ :: rest => (findSub rest needle).map (· + 1)

/-- Worker for the repeated non-overlapping left-to-right scan shared by
`ContextualAnchor::token_occurrences_in_context` (the `while let` loop in
`contextual_anchor.rs`) and Rust `str::match_indices`: find the leftmost
occurrence in the current suffix, record its absolute offset, and resume
immediately after the end of that match.  The first argument is an iteration
bound that only serves to make the recursion structural: every iteration with
a nonempty pattern consumes at least one byte of the haystack, so callers
pass `hay.length + 1`, which never runs out. -/
def occAux : Nat → List Nat → List Nat → Nat → List Nat
  | 0, _, _, _ => []
  | _ + 1, _, [], _ => []
  | fuel + 1, hay, n :: ns, base =>
    match findSub hay (n :: ns) with
    | none => []
    | some pos =>
      (base + pos) :: occAux fuel (hay.drop (pos + (n :: ns).length)) (n :: ns)
        (base + pos + (n :: ns).length)

/-- Model of Rust `str::match_indices` restricted to nonempty string patterns
(every use in the source is guarded by `validate_basic`, which rejects empty
`context_str` and `token`): the increasing list of byte offsets of the
non-overlapping left-to-right matches of `needle` in `hay`. -/
def matchIndices (hay needle : List Nat) : List Nat :=
  occAux (hay.length + 1) hay needle 0

/-! ## Anchor model (`contextual_anchor.rs`) -/

/-- `ContextualAnchor` from `contextual_anchor.rs`: a caller-supplied
context-plus-token description of a document location.  `index` is the
optional 1-based disambiguation index (`Option<usize>`). -/
structure ContextualAnchor where
  path : String
  context_str : String
  token : String
  index : Option Nat
deriving DecidableEq

/-- `ValidationError` from `contextual_anchor.rs`. -/
inductive ValidationError where
  | MissingContext
  | MissingToken
  | ContextDoesNotContainToken (context : String) (token : String)
  | InvalidIndex (ix : Nat)
deriving DecidableEq

/-- The `fmt::Display` implementation for `ValidationError`. -/
def validationErrorMessage : ValidationError → String
  | .MissingContext => "context_str is empty"
  | .MissingToken => "token is empty"
  | .ContextDoesNotContainToken _ token =>
      "context_str does not contain token `" ++ token ++ "`"
  | .InvalidIndex ix =>
      "index must be 1-based and >= 1 (got " ++ toString ix ++ ")"

/-- Model of Rust `str::contains` with a string pattern (byte-level exact
substring search). -/
def strContains (hay needle : String) : Bool :=
  (findSub (utf8Bytes hay) (utf8Bytes needle)).isSome

/-- `ContextualAnchor::validate_basic`: checks, in order, that `context_str`
is non-empty, `token` is non-empty, `context_str` contains `token`, and a
supplied `index` is not `0`. -/
def ContextualAnchor.validate_basic (a : ContextualAnchor) :
    Except ValidationError Unit :=
  if a.context_str = "" then .error .MissingContext
  else if a.token = "" then .error .MissingToken
  else if !strContains a.context_str a.token then
    .error (.ContextDoesNotContainToken a.context_str a.token)
  else
    match a.index with
    | some ix => if ix = 0 then .error (.InvalidIndex ix) else .ok ()
    | none => .ok ()

/-- `ContextualAnchor::token_occurrences_in_context`: byte offsets (relative
to the start of `context_str`) of the non-overlapping left-to-right
occurrences of `token` in `context_str`; empty when `token` is empty. -/
def ContextualAnchor.token_occurrences_in_context (a : ContextualAnchor) :
    List Nat :=
  let hay := utf8Bytes a.context_str
  let needle := utf8Bytes a.token
  if needle.isEmpty then [] else occAux (hay.length + 1) hay needle 0

/-! ## Resolver and orchestrator (`tools/find_references_tool.rs`) -/

/-- UTF-16 code-unit width of the character whose UTF-8 lead byte is `b`:
characters below `U+10000` (UTF-8 length 1-3) take one code unit, characters
at or above (UTF-8 length 4) take two. -/
def utf16LenOfLead (b : Nat) : Nat :=
  if b < 0xF0 then 1 else 2

/-- A line/column position counted in UTF-16 code units
(`language::PointUtf16`). -/
structure PointUtf16 where
  row : Nat
  column : Nat
deriving DecidableEq

/-- Worker for `offsetToPointUtf16`: walk the UTF-8 byte sequence character
by character, consuming `off` bytes, bumping the row at each `\n` (byte 10)
and otherwise adding one column unit per UTF-16 code unit of the character.
The first argument is an iteration bound that only serves to make the
recursion structural: every iteration consumes at least one byte of the
offset, so callers pass `off` itself, which never runs out. -/
def offsetToPointUtf16Aux : Nat → List Nat → Nat → Nat → Nat → Nat × Nat
  | _, _, 0, row, col => (row, col)
  | 0, _, _ + 1, row, col => (row, col)
  | _ + 1, [], _ + 1, row, col => (row, col)
  | fuel + 1, b :: rest, off + 1, row, col =>
    if off + 1 < charLen b then (row, col)
    else if b = 10 then
      offsetToPointUtf16Aux fuel (rest.drop (charLen b - 1)) (off + 1 - charLen b)
        (row + 1) 0
    else
      offsetToPointUtf16Aux fuel (rest.drop (charLen b - 1)) (off + 1 - charLen b)
        row (col + utf16LenOfLead b)

/-- Modelled from the spec: the text snapshot's byte-offset-to-position
conversion (`snapshot.offset_to_point_utf16`, provided by the external
document store): line/column coordinates in the snapshot's native position
encoding, one column unit per UTF-16 code unit, not per byte. -/
def offsetToPointUtf16 (t : List Nat) (off : Nat) : PointUtf16 :=
  let p := offsetToPointUtf16Aux off t off 0 0
  ⟨p.1, p.2⟩

/-- The center-position derivation of `FindReferencesTool::run` (the
`(row, column_utf16)` computation): start point of the chosen token byte
offset; end point of the token's end byte clamped to the snapshot length;
column is the floor average when both are on one row, the start column
otherwise; row is the start row. -/
def centerPointUtf16 (t : List Nat) (chosenByteOffset tokenByteLen : Nat) :
    PointUtf16 :=
  let startPt := offsetToPointUtf16 t chosenByteOffset
  let endByte := min (chosenByteOffset + tokenByteLen) t.length
  let endPt := offsetToPointUtf16 t endByte
  let column :=
    if startPt.row = endPt.row then (startPt.column + endPt.column) / 2
    else startPt.column
  ⟨startPt.row, column⟩

/-- The phase-2 token search of `FindReferencesTool::run`: occurrences of
`token` in the byte slice `full[snippet_start_byte..snippet_end_byte]`,
mapped back to absolute byte offsets.  The slice end is the context start
plus the context byte length, clamped to the snapshot length. -/
def tokenOccurrencesInSpan (text : String) (ca : ContextualAnchor)
    (snippetStartByte : Nat) : List Nat :=
  let tb := utf8Bytes text
  let snippetLen := (utf8Bytes ca.context_str).length
  let snippetEndByte := min (snippetStartByte + snippetLen) tb.length
  let slice := (tb.drop snippetStartByte).take (snippetEndByte - snippetStartByte)
  (matchIndices slice (utf8Bytes ca.token)).map (fun relOff => snippetStartByte + relOff)

/-- The resolution phase of `FindReferencesTool::run` (the code between the
`snippet_occurrences` scan and the selection of `chosen_byte_offset`):
either the byte offset of the selected token occurrence, or the diagnostic
message the tool emits for that failure. -/
def resolveTokenOffset (text : String) (ca : ContextualAnchor) :
    Except String Nat :=
  match matchIndices (utf8Bytes text) (utf8Bytes ca.context_str) with
  | [] => .error "No occurrences of the provided context_str were found"
  | [snippetStartByte] =>
    let occs := tokenOccurrencesInSpan text ca snippetStartByte
    if occs.isEmpty then
      .error ("Token `" ++ ca.token ++ "` not found inside the provided context_str")
    else if occs.length > 1 && ca.index.isNone then
      .error ("Multiple occurrences of token `" ++ ca.token ++
        "` found inside context; provide index to disambiguate")
    else
      let sel0 := (ca.index.getD 1) - 1
      if occs.length ≤ sel0 then
        .error ("selection_index " ++ toString (sel0 + 1) ++
          " out of range: token occurrences inside context = " ++ toString occs.length)
      else .ok (occs.getD sel0 0)
  | _ :: _ :: _ =>
    .error "Multiple occurrences of the provided context_str were found; contextual anchors must be unique"

/-- `FindReferencesLocation` from the tool's output schema (`u32` line and
character fields modelled as `Nat`). -/
structure FindReferencesLocation where
  path : String
  start_line : Nat
  start_character : Nat
  end_line : Nat
  end_character : Nat
  excerpt : Option String
deriving DecidableEq

/-- `FindReferencesToolOutput`. -/
structure FindReferencesToolOutput where
  locations : List FindReferencesLocation
deriving DecidableEq

/-- The `From<FindReferencesToolOutput> for LanguageModelToolResultContent`
implementation: the human-readable rendering of the tool output. -/
def FindReferencesToolOutput.toResultContent (o : FindReferencesToolOutput) :
    String :=
  if o.locations.isEmpty then "No references found"
  else
    o.locations.foldl
      (fun out loc =>
        out ++ ("\n- " ++ loc.path ++ ":" ++ toString loc.start_line ++ ":" ++
          toString loc.start_character ++ " - " ++ toString loc.end_line ++ ":" ++
          toString loc.end_character ++
          (match loc.excerpt with
           | some s => ": " ++ s
           | none => "")))
      ("Found " ++ toString o.locations.length ++ " references:")

/-- The per-location line form stated by the spec:
`path:start_line:start_character - end_line:end_character: excerpt`, the
excerpt part omitted when absent. -/
def specLocationLine (loc : FindReferencesLocation) : String :=
  loc.path ++ ":" ++ toString loc.start_line ++ ":" ++
    toString loc.start_character ++ " - " ++ toString loc.end_line ++ ":" ++
    toString loc.end_character ++
    (match loc.excerpt with
     | some s => ": " ++ s
     | none => "")

/-- One match returned by the external reference-lookup collaborator
(`project.references`), already converted to UTF-16 points:
`range.start/end.to_point_utf16` plus the raw text of the match's start line
(from which the excerpt is derived). -/
structure RefLocInfo where
  startRow : Nat
  startCol : Nat
  endRow : Nat
  endCol : Nat
  rawFirstLine : String
deriving DecidableEq

/-- Events emitted on the tool-call event stream.  Payloads that no claim
inspects (the snippet preview text and the ACP location paths) are elided;
the event kinds and their order are kept. -/
inductive ToolEvent where
  | rawMsg (msg : String)
  | snippetTest
  | snippetInfo
  | acpLocations (count : Nat)
deriving DecidableEq

/-- The collaborators `FindReferencesTool::run` interacts with, at their
interface boundary: whether `find_project_path` succeeds, the result of
`open_buffer` (the buffer's text on success), the LSP-backed `references`
lookup as a function of the queried position, and the display path
(`short_full_path_for_project_path`). -/
structure RunEnv where
  pathFound : Bool
  openBufferResult : Except String String
  lookupReferences : PointUtf16 → Except String (Option (List RefLocInfo))
  shortPath : Option String

/-- Rust `trim_end_matches(&['\r', '\n'][..])`. -/
def trimEndNewlines (s : String) : String :=
  String.mk ((s.data.reverse.dropWhile (fun c => c = '\r' || c = '\n')).reverse)

/-- Conversion of one collaborator match into a `FindReferencesLocation`
(the loop body at the end of `FindReferencesTool::run`): the excerpt is the
match's start line trimmed of trailing line terminators, omitted if empty;
the path is the display path of the target document. -/
def refLocToLocation (displayPath : String) (loc : RefLocInfo) :
    FindReferencesLocation :=
  let trimmed := trimEndNewlines loc.rawFirstLine
  { path := displayPath
    start_line := loc.startRow
    start_character := loc.startCol
    end_line := loc.endRow
    end_character := loc.endCol
    excerpt := if trimmed = "" then none else some trimmed }

/-- `FindReferencesTool::run`: validate the anchor, resolve the project path,
open the buffer, resolve the anchor against the buffer text, query the
reference-lookup collaborator at the token's center position, and convert the
matches.  Validation and resolution failures produce a successful empty
result plus a diagnostic event; infrastructure failures produce an error. -/
def runFindReferences (input : ContextualAnchor) (env : RunEnv) :
    Except String (FindReferencesToolOutput × List ToolEvent) :=
  match input.validate_basic with
  | .error e =>
    .ok (⟨[]⟩,
      [.rawMsg ("Contextual anchor validation failed: " ++ validationErrorMessage e)])
  | .ok _ =>
    if !env.pathFound then
      .error ("Path " ++ input.path ++ " not found in project")
    else
      match env.openBufferResult with
      | .error e => .error e
      | .ok text =>
        match resolveTokenOffset text input with
        | .error msg => .ok (⟨[]⟩, [.rawMsg msg])
        | .ok chosenByteOffset =>
          let point :=
            centerPointUtf16 (utf8Bytes text) chosenByteOffset
              (utf8Bytes input.token).length
          match env.lookupReferences point with
          | .error e => .error e
          | .ok maybeLocs =>
            let displayPath := env.shortPath.getD input.path
            let outputLocations :=
              (maybeLocs.getD []).map (refLocToLocation displayPath)
            let baseEvents := [ToolEvent.snippetTest, ToolEvent.snippetInfo]
            let events :=
              if outputLocations.isEmpty then baseEvents
              else baseEvents ++ [.acpLocations outputLocations.length]
            .ok (⟨outputLocations⟩, events)

/-! ## Content selector and outline renderer (`outline.rs`) -/

/-- `AUTO_OUTLINE_SIZE` from `outline.rs`: files over this byte size get an
outline instead of their full content. -/
def AUTO_OUTLINE_SIZE : Nat := 16384

/-- A line/column point (`text::Point`); only rows are consumed by the
renderer. -/
structure Point where
  row : Nat
  column : Nat
deriving DecidableEq

/-- `language::OutlineItem<Point>`, restricted to the fields the renderer
reads: the display text, the depth, and the item's range.  The
`source_range_for_text` field, read only while building the snippet that
accompanies each item, is represented by that snippet itself (the renderer
receives `(OutlineItem, Option<String>)` pairs). -/
structure OutlineItem where
  text : String
  depth : Nat
  rangeStart : Point
  rangeEnd : Point
deriving DecidableEq

/-- `BufferContent` from `outline.rs`; the text is kept as its UTF-8 byte
sequence, like every other string in this development. -/
structure BufferContent where
  text : List Nat
  is_outline : Bool
deriving DecidableEq

/-- Model of the iterator pipeline in `render_outline`:
`items.by_ref().filter(p).take(n)` followed by further reads of the same
iterator.  Returns the collected entries together with the part of the
underlying iterator that was never polled (from which `has_more` is read). -/
def takeFiltered (p : OutlineItem × Option String → Bool) :
    Nat → List (OutlineItem × Option String) →
    List (OutlineItem × Option String) × List (OutlineItem × Option String)
  | 0, rest => ([], rest)
  | _ + 1, [] => ([], [])
  | n + 1, x :: rest =>
    if p x then
      let r := takeFiltered p n rest
      (x :: r.1, r.2)
    else takeFiltered p (n + 1) rest

/-- Rust `str::lines().next().unwrap_or("")`: the first line, without its
terminating `\n` and without a trailing `\r`. -/
def firstLine (s : String) : String :=
  let l := s.data.takeWhile (fun c => c ≠ '\n')
  String.mk (if l.getLast? = some '\r' then l.dropLast else l)

/-- Rust `str::trim`: whitespace removed from both ends. -/
def rustTrim (s : String) : String :=
  String.mk (((s.data.dropWhile Char.isWhitespace).reverse.dropWhile
    Char.isWhitespace).reverse)

/-- `render_entries`: for each `(item, snippet)` pair, emit `depth` spaces,
then the trimmed first line of the snippet if it is non-empty (or the item's
display text when no snippet is available), then the 1-based line indicator
`[L{n}]` or `[L{start}-{end}]`.  Returns the output and the entry count. -/
def renderEntries (items : List (OutlineItem × Option String)) :
    String × Nat :=
  items.foldl
    (fun acc e =>
      let indented := acc.1 ++ String.mk (List.replicate e.1.depth ' ')
      let withText :=
        match e.2 with
        | some sig =>
          let sig2 := rustTrim (firstLine sig)
          if sig2 = "" then indented else indented ++ sig2
        | none => indented ++ e.1.text
      let startLine := e.1.rangeStart.row + 1
      let endLine := e.1.rangeEnd.row + 1
      let line :=
        if startLine = endLine then withText ++ (" [L" ++ toString startLine ++ "]\n")
        else
          withText ++ (" [L" ++ toString startLine ++ "-" ++ toString endLine ++ "]\n")
      (line, acc.2 + 1))
    ("", 0)

/-- `render_outline`: skip `offset` items, filter by the optional pattern
(the `regex` crate's `Regex::is_match` is modelled as an abstract match
predicate on the item's display text), take up to `results_per_page`
entries, render them, and append the pagination footer. -/
def renderOutline (items : List (OutlineItem × Option String))
    (filterMatch : Option (String → Bool)) (offset : Nat)
    (resultsPerPage : Nat) : String :=
  let afterSkip := items.drop offset
  let passes := fun (e : OutlineItem × Option String) =>
    match filterMatch with
    | none => true
    | some p => p e.1.text
  let tf := takeFiltered passes resultsPerPage afterSkip
  let hasMore := !tf.2.isEmpty
  let re := renderEntries tf.1
  let pageStart := offset + 1
  let pageEnd := offset + re.2
  let footer :=
    if hasMore then
      "\nShowing symbols " ++ toString pageStart ++ "-" ++ toString pageEnd ++
        " (there were more symbols found; use offset: " ++ toString pageEnd ++
        " to see next page)\n"
    else
      "\nShowing symbols " ++ toString pageStart ++ "-" ++ toString pageEnd ++
        " (total symbols: " ++ toString pageEnd ++ ")\n"
  re.1 ++ footer

/-- Worker for `floorCharBoundary`: walk downward from the given index to the
nearest character boundary (index `0` is always a boundary). -/
def findBoundaryDown (t : List Nat) : Nat → Nat
  | 0 => 0
  | j + 1 => if isCharBoundary t (j + 1) then j + 1 else findBoundaryDown t j

/-- Modelled from the spec: `Rope::floor_char_boundary` of the external
document store — the nearest valid character boundary at or before the given
byte index, the index first clamped to the text length ("truncate at the
nearest valid character boundary at or before a 1024-unit cutoff"). -/
def floorCharBoundary (t : List Nat) (i : Nat) : Nat :=
  findBoundaryDown t (min i t.length)

/-- The header of the large-file prefix fallback in
`get_buffer_content_or_outline`. -/
def firstKbHeader : Option String → String
  | some p =>
    "# First 1KB of " ++ p ++
      " (file too large to show full content, and no outline available)\n\n"
  | none =>
    "# First 1KB of file (file too large to show full content, and no outline available)\n\n"

/-- The header of the outline branch of `get_buffer_content_or_outline`. -/
def outlineHeader : Option String → String
  | some p => "# File outline for " ++ p ++ "\n\n"
  | none => "# File outline\n\n"

/-- Rust `usize::MAX`, the unbounded page-size sentinel. -/
def USIZE_MAX : Nat := 2 ^ 64 - 1

/-- `get_buffer_content_or_outline`: full text at or below
`AUTO_OUTLINE_SIZE` bytes; above it, either the rendered outline (when the
outline collaborator returned items) or the prefix fallback truncated at a
character boundary at or before byte 1024.  The `(item, snippet)` pairs are
the result of the outline extraction read (lines 44-66 of `outline.rs`); the
await of the parsing collaborator is a suspension point outside this model. -/
def getBufferContentOrOutline (text : List Nat)
    (outlineItemsWithSnippets : List (OutlineItem × Option String))
    (path : Option String) : BufferContent :=
  if text.length > AUTO_OUTLINE_SIZE then
    if outlineItemsWithSnippets.isEmpty then
      let len := min text.length (floorCharBoundary text 1024)
      let content := text.take len
      { text := utf8Bytes (firstKbHeader path) ++ content, is_outline := false }
    else
      let outlineText := renderOutline outlineItemsWithSnippets none 0 USIZE_MAX
      { text := utf8Bytes (outlineHeader path ++ outlineText), is_outline := true }
  else { text := text, is_outline := false }

/-! ## Properties of the substring scan -/


theorem findSub_some_isPrefix {hay needle : List Nat} {p : Nat}
    (h : findSub hay needle = some p) : needle <+: hay.drop p := by
  induction hay generalizing p with
  | nil =>
    rw [findSub] at h
    split at h
    · rename_i hpre
      obtain rfl : p = 0 := by simpa using h.symm
      simpa using List.isPrefixOf_iff_prefix.mp hpre
    · simp at h
  | cons a rest ih =>
    rw [findSub] at h
    split at h
    · rename_i hpre
      obtain rfl : p = 0 := by simpa using h.symm
      simpa using List.isPrefixOf_iff_prefix.mp hpre
    · simp only [Option.map_eq_some'] at h
      obtain ⟨q, hq, rfl⟩ := h
      simpa [List.drop_succ_cons] using ih hq

theorem findSub_le_length {hay needle : List Nat} {p : Nat}
    (h : findSub hay needle = some p) : p ≤ hay.length := by
  induction hay generalizing p with
  | nil =>
    rw [findSub] at h
    split at h
    · obtain rfl : p = 0 := by simpa using h.symm
      simp
    · simp at h
  | cons a rest ih =>
    rw [findSub] at h
    split at h
    · obtain rfl : p = 0 := by simpa using h.symm
      simp
    · simp only [Option.map_eq_some'] at h
      obtain ⟨q, hq, rfl⟩ := h
      simpa using ih hq

theorem findSub_exists_of_isPrefix {hay needle : List Nat} {p : Nat}
    (h : needle <+: hay.drop p) :
    ∃ q, q ≤ p ∧ findSub hay needle = some q := by
  induction hay generalizing p with
  | nil =>
    have hne : needle = [] := by
      have hl := h.length_le
      simp only [List.drop_nil, List.length_nil, Nat.le_zero] at hl
      exact List.length_eq_zero.mp hl
    subst hne
    refine ⟨0, Nat.zero_le p, ?_⟩
    rw [findSub]
    simp [ List.isPrefixOf_iff_prefix]
  | cons a rest ih =>
    by_cases hpre : needle.isPrefixOf (a :: rest)
    · exact ⟨0, Nat.zero_le p, by rw [findSub]; simp [hpre]⟩
    · cases p with
      | zero =>
        simp only [List.drop_zero] at h
        exact absurd ( List.isPrefixOf_iff_prefix.mpr h) hpre
      | succ p' =>
        rw [List.drop_succ_cons] at h
        obtain ⟨q, hqle, hq⟩ := ih h
        refine ⟨q + 1, Nat.succ_le_succ hqle, ?_⟩
        rw [findSub]
        simp [hpre, hq]

theorem occAux_nil_needle (fuel : Nat) (hay : List Nat) (base : Nat) :
    occAux fuel hay [] base = [] := by
  cases fuel <;> rfl

theorem occAux_succ_none {hay : List Nat} {n : Nat} {ns : List Nat}
    (fuel base : Nat) (h : findSub hay (n :: ns) = none) :
    occAux (fuel + 1) hay (n :: ns) base = [] := by
  simp [occAux, h]

theorem occAux_succ_some {hay : List Nat} {n : Nat} {ns : List Nat} {pos : Nat}
    (fuel base : Nat) (h : findSub hay (n :: ns) = some pos) :
    occAux (fuel + 1) hay (n :: ns) base =
      (base + pos) :: occAux fuel (hay.drop (pos + (n :: ns).length)) (n :: ns)
        (base + pos + (n :: ns).length) := by
  simp [occAux, h]

theorem occAux_mem_ge (fuel : Nat) (hay needle : List Nat) (base : Nat) :
    ∀ x ∈ occAux fuel hay needle base, base ≤ x := by
  induction fuel generalizing hay base with
  | zero => simp [occAux]
  | succ fuel ih =>
    cases needle with
    | nil => simp [occAux_nil_needle]
    | cons n ns =>
      cases hf : findSub hay (n :: ns) with
      | none => simp [occAux_succ_none _ _ hf]
      | some pos =>
        rw [occAux_succ_some _ _ hf]
        intro x hx
        rcases List.mem_cons.mp hx with rfl | hx'
        · omega
        · have := ih _ _ x hx'
          omega

theorem occAux_mem_occurs (fuel : Nat) (hay : List Nat) (n : Nat)
    (ns : List Nat) (base : Nat) :
    ∀ x ∈ occAux fuel hay (n :: ns) base,
      (n :: ns) <+: hay.drop (x - base) ∧
        x - base + (n :: ns).length ≤ hay.length := by
  induction fuel generalizing hay base with
  | zero => simp [occAux]
  | succ fuel ih =>
    cases hf : findSub hay (n :: ns) with
    | none => simp [occAux_succ_none _ _ hf]
    | some pos =>
      rw [occAux_succ_some _ _ hf]
      intro x hx
      rcases List.mem_cons.mp hx with rfl | hx'
      · have hpre := findSub_some_isPrefix hf
        have hposlen := findSub_le_length hf
        have hlen := hpre.length_le
        rw [List.length_drop] at hlen
        constructor
        · simpa using hpre
        · simp only [List.length_cons] at hlen ⊢
          omega
      · have hge := occAux_mem_ge _ _ _ _ x hx'
        obtain ⟨hpre', hlen'⟩ := ih _ _ x hx'
        rw [List.drop_drop] at hpre'
        rw [List.length_drop] at hlen'
        simp only [List.length_cons] at hge hpre' hlen' ⊢
        have harith : pos + (ns.length + 1) + (x - (base + pos + (ns.length + 1))) =
            x - base := by omega
        rw [harith] at hpre'
        exact ⟨hpre', by omega⟩

theorem occAux_chain (fuel : Nat) (hay needle : List Nat) (base : Nat) :
    List.Chain' (fun a b => a + needle.length ≤ b) (occAux fuel hay needle base) := by
  induction fuel generalizing hay base with
  | zero => simp [occAux]
  | succ fuel ih =>
    cases needle with
    | nil => simp [occAux_nil_needle]
    | cons n ns =>
      cases hf : findSub hay (n :: ns) with
      | none => simp [occAux_succ_none _ _ hf]
      | some pos =>
        rw [occAux_succ_some _ _ hf]
        refine List.chain'_cons'.mpr ⟨?_, ih _ _⟩
        intro y hy
        have hmem := List.mem_of_mem_head? hy
        have := occAux_mem_ge _ _ _ _ y hmem
        simp only [List.length_cons] at this ⊢
        omega

theorem matchIndices_mem_occurs {t : List Nat} {m : Nat} {ms : List Nat} {x : Nat}
    (h : x ∈ matchIndices t (m :: ms)) :
    (m :: ms) <+: t.drop x ∧ x + (m :: ms).length ≤ t.length := by
  have := occAux_mem_occurs (t.length + 1) t m ms 0 x h
  simpa using this

theorem matchIndices_two_of_disjoint {t : List Nat} {m : Nat} {ms : List Nat}
    {i j : Nat} (hij : i + (m :: ms).length ≤ j)
    (hi : (m :: ms) <+: t.drop i) (hj : (m :: ms) <+: t.drop j) :
    2 ≤ (matchIndices t (m :: ms)).length := by
  obtain ⟨q, hqle, hq⟩ := findSub_exists_of_isPrefix hi
  have htne : t ≠ [] := by
    intro hcon
    subst hcon
    have := hi.length_le
    simp at this
  obtain ⟨tl, htl⟩ : ∃ tl, t.length = tl + 1 := by
    cases hlen : t.length with
    | zero => exact absurd (List.length_eq_zero.mp hlen) htne
    | succ k => exact ⟨k, rfl⟩
  rw [matchIndices, htl, occAux_succ_some _ _ hq]
  have hj' : (m :: ms) <+: (t.drop (q + (m :: ms).length)).drop
      (j - (q + (m :: ms).length)) := by
    rw [List.drop_drop]
    have harith : q + (m :: ms).length + (j - (q + (m :: ms).length)) = j := by
      simp only [List.length_cons] at hij ⊢
      omega
    rw [harith]
    exact hj
  obtain ⟨q2, -, hq2⟩ := findSub_exists_of_isPrefix hj'
  obtain ⟨tl2, htl2⟩ : ∃ tl2, tl = tl2 + 1 := by
    have hfit := hj.length_le
    rw [List.length_drop] at hfit
    simp only [List.length_cons] at hfit hij
    cases tl with
    | zero => omega
    | succ k => exact ⟨k, rfl⟩
  rw [htl2, occAux_succ_some _ _ hq2]
  simp

theorem matchIndices_eq_nil_of_no_occurrence {t : List Nat} {m : Nat}
    {ms : List Nat} (h : ∀ p, ¬ (m :: ms) <+: t.drop p) :
    matchIndices t (m :: ms) = [] := by
  cases hf : findSub t (m :: ms) with
  | none => exact occAux_succ_none _ _ hf
  | some pos => exact absurd (findSub_some_isPrefix hf) (h pos)

/-! ## Validation facts and orchestrator branches -/

theorem utf8EncodeChar_ne_nil (c : Char) : utf8EncodeChar c ≠ [] := by
  simp only [utf8EncodeChar]
  split
  · simp
  · split
    · simp
    · split <;> simp

theorem utf8Bytes_ne_nil {s : String} (h : s ≠ "") : utf8Bytes s ≠ [] := by
  unfold utf8Bytes
  cases hd : s.data with
  | nil =>
    exfalso
    apply h
    apply String.ext
    rw [hd]
  | cons c cs =>
    simp only [List.map_cons, List.flatten_cons]
    intro hcon
    have := List.append_eq_nil.mp hcon
    exact utf8EncodeChar_ne_nil c this.1

theorem validate_basic_ok_facts {a : ContextualAnchor}
    (h : a.validate_basic = .ok ()) :
    a.context_str ≠ "" ∧ a.token ≠ "" ∧
      strContains a.context_str a.token = true ∧ a.index ≠ some 0 := by
  unfold ContextualAnchor.validate_basic at h
  split at h
  · simp at h
  · split at h
    · simp at h
    · split at h
      · simp at h
      · rename_i h1 h2 h3
        refine ⟨h1, h2, by simpa using h3, ?_⟩
        split at h
        · rename_i ix hix
          split at h
          · simp at h
          · rename_i hix0
            rw [hix]
            intro hcon
            exact hix0 (by simpa using hcon)
        · rename_i hnone
          rw [hnone]
          simp

theorem runFindReferences_validate_error {a : ContextualAnchor} {env : RunEnv}
    {e : ValidationError} (h : a.validate_basic = .error e) :
    runFindReferences a env =
      .ok (⟨[]⟩, [.rawMsg ("Contextual anchor validation failed: " ++
        validationErrorMessage e)]) := by
  unfold runFindReferences
  rw [h]

theorem runFindReferences_path_not_found {a : ContextualAnchor} {env : RunEnv}
    (hval : a.validate_basic = .ok ()) (hpath : env.pathFound = false) :
    runFindReferences a env =
      .error ("Path " ++ a.path ++ " not found in project") := by
  unfold runFindReferences
  rw [hval, hpath]
  rfl

theorem runFindReferences_open_error {a : ContextualAnchor} {env : RunEnv}
    {e : String} (hval : a.validate_basic = .ok ())
    (hpath : env.pathFound = true) (hopen : env.openBufferResult = .error e) :
    runFindReferences a env = .error e := by
  unfold runFindReferences
  simp only [hval, hpath, hopen, Bool.not_true, Bool.false_eq_true, if_false]

theorem runFindReferences_resolve_error {a : ContextualAnchor} {env : RunEnv}
    {text msg : String} (hval : a.validate_basic = .ok ())
    (hpath : env.pathFound = true) (hopen : env.openBufferResult = .ok text)
    (hres : resolveTokenOffset text a = .error msg) :
    runFindReferences a env = .ok (⟨[]⟩, [.rawMsg msg]) := by
  unfold runFindReferences
  simp only [hval, hpath, hopen, hres, Bool.not_true, Bool.false_eq_true, if_false]

theorem runFindReferences_lookup_error {a : ContextualAnchor} {env : RunEnv}
    {text : String} {chosen : Nat} {e : String}
    (hval : a.validate_basic = .ok ()) (hpath : env.pathFound = true)
    (hopen : env.openBufferResult = .ok text)
    (hres : resolveTokenOffset text a = .ok chosen)
    (hlook : env.lookupReferences
        (centerPointUtf16 (utf8Bytes text) chosen (utf8Bytes a.token).length) =
      .error e) :
    runFindReferences a env = .error e := by
  unfold runFindReferences
  simp only [hval, hpath, hopen, hres, hlook, Bool.not_true, Bool.false_eq_true,
    if_false]

theorem resolveTokenOffset_no_context {text : String} {a : ContextualAnchor}
    (h : matchIndices (utf8Bytes text) (utf8Bytes a.context_str) = []) :
    resolveTokenOffset text a =
      .error "No occurrences of the provided context_str were found" := by
  unfold resolveTokenOffset
  rw [h]

theorem resolveTokenOffset_multi_context {text : String} {a : ContextualAnchor}
    {x y : Nat} {rest : List Nat}
    (h : matchIndices (utf8Bytes text) (utf8Bytes a.context_str) = x :: y :: rest) :
    resolveTokenOffset text a =
      .error "Multiple occurrences of the provided context_str were found; contextual anchors must be unique" := by
  unfold resolveTokenOffset
  rw [h]

theorem resolveTokenOffset_token_selection {text : String} {a : ContextualAnchor}
    {c : Nat} (hctx : matchIndices (utf8Bytes text) (utf8Bytes a.context_str) = [c])
    (hn : 1 ≤ (tokenOccurrencesInSpan text a c).length) :
    (∀ k, a.index = some k → 1 ≤ k →
        k ≤ (tokenOccurrencesInSpan text a c).length →
        resolveTokenOffset text a =
          .ok ((tokenOccurrencesInSpan text a c).getD (k - 1) 0)) ∧
    (∀ k, a.index = some k → (tokenOccurrencesInSpan text a c).length < k →
        resolveTokenOffset text a =
          .error ("selection_index " ++ toString k ++
            " out of range: token occurrences inside context = " ++
            toString (tokenOccurrencesInSpan text a c).length)) ∧
    (a.index = none → (tokenOccurrencesInSpan text a c).length = 1 →
        resolveTokenOffset text a =
          .ok ((tokenOccurrencesInSpan text a c).getD 0 0)) ∧
    (a.index = none → 1 < (tokenOccurrencesInSpan text a c).length →
        resolveTokenOffset text a =
          .error ("Multiple occurrences of token `" ++ a.token ++
            "` found inside context; provide index to disambiguate")) := by
  have hne : (tokenOccurrencesInSpan text a c).isEmpty = false := by
    cases hcase : tokenOccurrencesInSpan text a c with
    | nil => rw [hcase] at hn; exact absurd hn (by simp)
    | cons x xs => rfl
  refine ⟨?_, ?_, ?_, ?_⟩
  · intro k hk h1 h2
    unfold resolveTokenOffset
    rw [hctx]
    simp only [hne, Bool.false_eq_true, if_false, hk, Option.isNone_some,
      Bool.and_false, Option.getD_some]
    rw [if_neg (by omega)]
  · intro k hk h2
    unfold resolveTokenOffset
    rw [hctx]
    simp only [hne, Bool.false_eq_true, if_false, hk, Option.isNone_some,
      Bool.and_false, Option.getD_some]
    rw [if_pos (by omega)]
    have : k - 1 + 1 = k := by omega
    rw [this]
  · intro hk h1
    unfold resolveTokenOffset
    rw [hctx]
    simp only [hne, Bool.false_eq_true, if_false, hk, Option.isNone_none,
      Bool.and_true, Option.getD_none, decide_eq_true_eq]
    rw [if_neg (by omega), if_neg (by omega)]
  · intro hk h1
    unfold resolveTokenOffset
    rw [hctx]
    simp only [hne, Bool.false_eq_true, if_false, hk, Option.isNone_none,
      Bool.and_true, Option.getD_none, decide_eq_true_eq]
    rw [if_pos (by omega)]

/-! ## Claim theorems -/

/-- Claim C1: when `context_str` matches exactly once in the snapshot and the
token occurs `n ≥ 1` times inside the matched span: a supplied 1-based index
`k` with `1 ≤ k ≤ n` selects the `k`-th (left-to-right) token occurrence;
`k > n` fails with the index-out-of-range diagnostic and the call returns an
empty location list; an omitted index selects the single occurrence when
`n = 1`, and fails with the ambiguous-token diagnostic and an empty location
list when `n > 1`. -/
theorem claim_C1_token_index_selection (text : String) (a : ContextualAnchor)
    (env : RunEnv) (c : Nat)
    (hval : a.validate_basic = .ok ()) (hpath : env.pathFound = true)
    (hopen : env.openBufferResult = .ok text)
    (hctx : matchIndices (utf8Bytes text) (utf8Bytes a.context_str) = [c])
    (hn : 1 ≤ (tokenOccurrencesInSpan text a c).length) :
    (∀ k, a.index = some k → 1 ≤ k →
        k ≤ (tokenOccurrencesInSpan text a c).length →
        resolveTokenOffset text a =
          .ok ((tokenOccurrencesInSpan text a c).getD (k - 1) 0)) ∧
    (∀ k, a.index = some k → (tokenOccurrencesInSpan text a c).length < k →
        runFindReferences a env = .ok (⟨[]⟩,
          [.rawMsg ("selection_index " ++ toString k ++
            " out of range: token occurrences inside context = " ++
            toString (tokenOccurrencesInSpan text a c).length)])) ∧
    (a.index = none → (tokenOccurrencesInSpan text a c).length = 1 →
        resolveTokenOffset text a =
          .ok ((tokenOccurrencesInSpan text a c).getD 0 0)) ∧
    (a.index = none → 1 < (tokenOccurrencesInSpan text a c).length →
        runFindReferences a env = .ok (⟨[]⟩,
          [.rawMsg ("Multiple occurrences of token `" ++ a.token ++
            "` found inside context; provide index to disambiguate")])) := by
  obtain ⟨hsel, hoor, hone, hambig⟩ := resolveTokenOffset_token_selection hctx hn
  refine ⟨hsel, ?_, hone, ?_⟩
  · intro k hk hlt
    exact runFindReferences_resolve_error hval hpath hopen (hoor k hk hlt)
  · intro hk hlt
    exact runFindReferences_resolve_error hval hpath hopen (hambig hk hlt)

/-- Witness for C1: the spec's end-to-end example; `index = 2` selects the
second `foo` (byte offset 33, inside the function body). -/
theorem claim_C1_witness :
    resolveTokenOffset "xx fn example(foo: i32) -> i32 { foo + 1 } yy"
      (ContextualAnchor.mk "a.rs" "fn example(foo: i32) -> i32 { foo + 1 }" "foo"
        (some 2)) = .ok 33 := by
  have h := (claim_C1_token_index_selection
    "xx fn example(foo: i32) -> i32 { foo + 1 } yy"
    (ContextualAnchor.mk "a.rs" "fn example(foo: i32) -> i32 { foo + 1 }" "foo"
      (some 2))
    (RunEnv.mk true (.ok "xx fn example(foo: i32) -> i32 { foo + 1 } yy")
      (fun _ => .ok none) none)
    3 rfl rfl rfl (by decide) (by decide)).1 2 rfl (by decide) (by decide)
  exact h.trans rfl

/-- Claim C2: a context with two or more non-overlapping exact occurrences
anywhere in the document fails with the ambiguous-context diagnostic and an
empty location list, whatever the (validated) token and index fields; zero
occurrences fails with the no-context-match diagnostic. -/
theorem claim_C2_context_ambiguity (a : ContextualAnchor) (env : RunEnv)
    (text : String) (hval : a.validate_basic = .ok ())
    (hpath : env.pathFound = true) (hopen : env.openBufferResult = .ok text) :
    ((∃ i j, i + (utf8Bytes a.context_str).length ≤ j ∧
        utf8Bytes a.context_str <+: (utf8Bytes text).drop i ∧
        utf8Bytes a.context_str <+: (utf8Bytes text).drop j) →
      runFindReferences a env = .ok (⟨[]⟩, [.rawMsg
        "Multiple occurrences of the provided context_str were found; contextual anchors must be unique"])) ∧
    ((∀ p, ¬ utf8Bytes a.context_str <+: (utf8Bytes text).drop p) →
      runFindReferences a env = .ok (⟨[]⟩, [.rawMsg
        "No occurrences of the provided context_str were found"])) := by
  obtain ⟨hctxne, -, -, -⟩ := validate_basic_ok_facts hval
  obtain ⟨m, ms, hms⟩ := List.exists_cons_of_ne_nil (utf8Bytes_ne_nil hctxne)
  constructor
  · rintro ⟨i, j, hij, hi, hj⟩
    have hij' : i + (m :: ms).length ≤ j := by rw [← hms]; exact hij
    have h2 := matchIndices_two_of_disjoint hij' (hms ▸ hi) (hms ▸ hj)
    rw [← hms] at h2
    have hres : resolveTokenOffset text a = .error
        "Multiple occurrences of the provided context_str were found; contextual anchors must be unique" := by
      cases hmi : matchIndices (utf8Bytes text) (utf8Bytes a.context_str) with
      | nil => rw [hmi] at h2; simp at h2
      | cons x xs =>
        cases xs with
        | nil => rw [hmi] at h2; simp at h2
        | cons y rest => exact resolveTokenOffset_multi_context hmi
    exact runFindReferences_resolve_error hval hpath hopen hres
  · intro hno
    have hnil : matchIndices (utf8Bytes text) (utf8Bytes a.context_str) = [] := by
      rw [hms]
      apply matchIndices_eq_nil_of_no_occurrence
      intro p
      rw [← hms]
      exact hno p
    exact runFindReferences_resolve_error hval hpath hopen
      (resolveTokenOffset_no_context hnil)

/-- Witness for C2: the context `"ab"` occurs twice in `"abab"`, so the call
succeeds with an empty location list and the ambiguous-context diagnostic. -/
theorem claim_C2_witness :
    runFindReferences (ContextualAnchor.mk "a.rs" "ab" "a" none)
      (RunEnv.mk true (.ok "abab") (fun _ => .ok none) none) = .ok (⟨[]⟩,
      [.rawMsg "Multiple occurrences of the provided context_str were found; contextual anchors must be unique"]) := by
  exact (claim_C2_context_ambiguity
    (ContextualAnchor.mk "a.rs" "ab" "a" none)
    (RunEnv.mk true (.ok "abab") (fun _ => .ok none) none)
    "abab" rfl rfl rfl).1
    ⟨0, 2, by decide, ⟨[97, 98], by decide⟩, ⟨[], by decide⟩⟩

/-- Claim C4: two-tiered error propagation of `FindReferencesTool::run` —
validation failures and resolution failures yield a successful call with an
empty location list plus a diagnostic event; path-not-found, buffer-open
failures and lookup-collaborator errors yield a hard error of the call. -/
theorem claim_C4_error_propagation (a : ContextualAnchor) (env : RunEnv) :
    (∀ e, a.validate_basic = .error e →
      runFindReferences a env = .ok (⟨[]⟩, [.rawMsg
        ("Contextual anchor validation failed: " ++ validationErrorMessage e)])) ∧
    (a.validate_basic = .ok () → env.pathFound = false →
      runFindReferences a env =
        .error ("Path " ++ a.path ++ " not found in project")) ∧
    (∀ e, a.validate_basic = .ok () → env.pathFound = true →
      env.openBufferResult = .error e → runFindReferences a env = .error e) ∧
    (∀ text msg, a.validate_basic = .ok () → env.pathFound = true →
      env.openBufferResult = .ok text → resolveTokenOffset text a = .error msg →
      runFindReferences a env = .ok (⟨[]⟩, [.rawMsg msg])) ∧
    (∀ text chosen e, a.validate_basic = .ok () → env.pathFound = true →
      env.openBufferResult = .ok text → resolveTokenOffset text a = .ok chosen →
      env.lookupReferences (centerPointUtf16 (utf8Bytes text) chosen
        (utf8Bytes a.token).length) = .error e →
      runFindReferences a env = .error e) := by
  refine ⟨?_, ?_, ?_, ?_, ?_⟩
  · intro e he
    exact runFindReferences_validate_error he
  · intro hval hpath
    exact runFindReferences_path_not_found hval hpath
  · intro e hval hpath hopen
    exact runFindReferences_open_error hval hpath hopen
  · intro text msg hval hpath hopen hres
    exact runFindReferences_resolve_error hval hpath hopen hres
  · intro text chosen e hval hpath hopen hres hlook
    exact runFindReferences_lookup_error hval hpath hopen hres hlook

/-- Witness for C4: a validation failure yields a successful empty result
with a diagnostic, while a missing project path yields a hard error. -/
theorem claim_C4_witness :
    runFindReferences (ContextualAnchor.mk "a.rs" "" "x" none)
        (RunEnv.mk true (.ok "zz") (fun _ => .ok none) none) =
      .ok (⟨[]⟩, [.rawMsg "Contextual anchor validation failed: context_str is empty"]) ∧
    runFindReferences (ContextualAnchor.mk "a.rs" "ab" "a" none)
        (RunEnv.mk false (.ok "zz") (fun _ => .ok none) none) =
      .error "Path a.rs not found in project" := by
  constructor
  · exact ((claim_C4_error_propagation (ContextualAnchor.mk "a.rs" "" "x" none)
      (RunEnv.mk true (.ok "zz") (fun _ => .ok none) none)).1
      ValidationError.MissingContext rfl).trans rfl
  · exact ((claim_C4_error_propagation (ContextualAnchor.mk "a.rs" "ab" "a" none)
      (RunEnv.mk false (.ok "zz") (fun _ => .ok none) none)).2.1 rfl rfl).trans rfl

/-- Counterexample to claim C5 as stated: an anchor with `index = Some(0)`
but an empty `context_str` fails with `MissingContext`, not
`InvalidIndex(0)` — the earlier checks of `validate_basic` win. -/
theorem claim_C5_counterexample :
    (ContextualAnchor.mk "a.rs" "" "tok" (some 0)).index = some 0 ∧
      (ContextualAnchor.mk "a.rs" "" "tok" (some 0)).validate_basic ≠
        Except.error (ValidationError.InvalidIndex 0) := by
  refine ⟨rfl, ?_⟩
  intro h
  have : (ContextualAnchor.mk "a.rs" "" "tok" (some 0)).validate_basic =
      Except.error ValidationError.MissingContext := rfl
  rw [this] at h
  exact absurd (by injection h) (by decide)

/-- Claim C5 (amended): `validate_basic` returns `InvalidIndex(0)` only if
`index = Some(0)`; conversely, when the earlier checks pass (`context_str`
non-empty, `token` non-empty, `context_str` containing `token`),
`index = Some(0)` forces exactly that error. -/
theorem claim_C5_invalid_index (a : ContextualAnchor) :
    (a.validate_basic = .error (.InvalidIndex 0) → a.index = some 0) ∧
      (a.context_str ≠ "" → a.token ≠ "" →
        strContains a.context_str a.token = true → a.index = some 0 →
        a.validate_basic = .error (.InvalidIndex 0)) := by
  constructor
  · intro h
    unfold ContextualAnchor.validate_basic at h
    split at h
    · simp at h
    · split at h
      · simp at h
      · split at h
        · simp at h
        · split at h
          · rename_i ix hix
            split at h
            · rename_i hix0
              rw [hix, hix0]
            · simp at h
          · simp at h
  · intro h1 h2 h3 h4
    unfold ContextualAnchor.validate_basic
    rw [if_neg h1, if_neg h2, h4]
    simp [h3]

/-- Witness for C5 (amended): a fully-populated anchor with `index = Some(0)`
fails with exactly `InvalidIndex(0)`. -/
theorem claim_C5_witness :
    (ContextualAnchor.mk "a.rs" "ab" "a" (some 0)).validate_basic =
      Except.error (ValidationError.InvalidIndex 0) := by
  exact (claim_C5_invalid_index (ContextualAnchor.mk "a.rs" "ab" "a" (some 0))).2
    (by decide) (by decide) (by decide) rfl

/-- Claim C6: `token_occurrences_in_context` returns byte offsets in strictly
increasing order, consecutive offsets at least the token's byte length apart
(the non-overlapping left-to-right scan), the empty sequence for an empty
token, and exactly `[0, 8]` for context `"foo bar foo"` with token `"foo"`. -/
theorem claim_C6_token_occurrences (a : ContextualAnchor) :
    List.Chain' (fun x y => x + (utf8Bytes a.token).length ≤ y)
        a.token_occurrences_in_context ∧
      List.Pairwise (· < ·) a.token_occurrences_in_context ∧
      (a.token = "" → a.token_occurrences_in_context = []) ∧
      (ContextualAnchor.mk "p" "foo bar foo" "foo"
          none).token_occurrences_in_context = [0, 8] := by
  refine ⟨?_, ?_, ?_, by decide⟩
  · simp only [ContextualAnchor.token_occurrences_in_context]
    split
    · simp
    · exact occAux_chain _ _ _ _
  · have hchain : List.Chain' (· < ·) a.token_occurrences_in_context := by
      simp only [ContextualAnchor.token_occurrences_in_context]
      split
      · simp
      · rename_i hne
        refine (occAux_chain _ _ _ _).imp ?_
        intro x y hxy
        have : (utf8Bytes a.token).length ≠ 0 := by
          simpa [List.isEmpty_iff, List.length_eq_zero] using hne
        omega
    exact List.chain'_iff_pairwise.mp hchain
  · intro htok
    simp only [ContextualAnchor.token_occurrences_in_context, htok]
    rfl

/-- Witness for C6: an anchor with an empty token yields no occurrences. -/
theorem claim_C6_witness :
    (ContextualAnchor.mk "p" "abc" "" none).token_occurrences_in_context = [] := by
  exact (claim_C6_token_occurrences (ContextualAnchor.mk "p" "abc" "" none)).2.2.1 rfl

theorem string_foldl_append_init : ∀ (l : List String) (a b : String),
    l.foldl (fun r s => r ++ s) (a ++ b) = a ++ l.foldl (fun r s => r ++ s) b := by
  intro l
  induction l with
  | nil => intro a b; rfl
  | cons x xs ih =>
    intro a b
    simp only [List.foldl_cons]
    rw [String.append_assoc, ih]

theorem string_foldl_append (l : List String) (b : String) :
    l.foldl (fun r s => r ++ s) b = b ++ l.foldl (fun r s => r ++ s) "" := by
  have h := string_foldl_append_init l b ""
  rw [String.append_empty] at h
  exact h

theorem string_join_cons (x : String) (l : List String) :
    String.join (x :: l) = x ++ String.join l := by
  simp only [String.join, List.foldl_cons, String.empty_append]
  exact string_foldl_append l x

theorem foldl_append_join {α : Type} (f : α → String) :
    ∀ (l : List α) (init : String),
      l.foldl (fun acc x => acc ++ f x) init = init ++ String.join (l.map f) := by
  intro l
  induction l with
  | nil =>
    intro init
    simp [String.join, String.append_empty]
  | cons x xs ih =>
    intro init
    simp only [List.foldl_cons, List.map_cons]
    rw [ih, string_join_cons, ← String.append_assoc]

/-- Claim C9: the human-readable rendering of the tool output is exactly
`"No references found"` when the location list is empty, and otherwise a
header followed by one line per location of the form
`path:start_line:start_character - end_line:end_character: excerpt`
(excerpt omitted when absent). -/
theorem claim_C9_rendering (o : FindReferencesToolOutput) :
    (o.locations = [] → o.toResultContent = "No references found") ∧
      (o.locations ≠ [] → o.toResultContent =
        "Found " ++ toString o.locations.length ++ " references:" ++
          String.join (o.locations.map (fun loc => "\n- " ++ specLocationLine loc))) := by
  constructor
  · intro h
    unfold FindReferencesToolOutput.toResultContent
    rw [if_pos (by simp [h])]
  · intro h
    unfold FindReferencesToolOutput.toResultContent
    rw [if_neg (by simp [h])]
    rw [foldl_append_join]
    congr 1

/-- Witness for C9: a two-location output renders as a header plus one line
per location, the second without an excerpt. -/
theorem claim_C9_witness :
    FindReferencesToolOutput.toResultContent
        ⟨[⟨"a.rs", 1, 2, 3, 4, some "ex"⟩, ⟨"b.rs", 5, 6, 7, 8, none⟩]⟩ =
      "Found 2 references:\n- a.rs:1:2 - 3:4: ex\n- b.rs:5:6 - 7:8" := by
  have h := (claim_C9_rendering
    ⟨[⟨"a.rs", 1, 2, 3, 4, some "ex"⟩, ⟨"b.rs", 5, 6, 7, 8, none⟩]⟩).2 (by simp)
  rw [h]
  decide

/-- Claim C3: the derived center position's row is always the token start's
row; its column is the floor average of start and end columns when the span
stays on one row and the start column otherwise — columns counted in the
snapshot's position encoding (UTF-16 code units, not bytes: a 3-byte `⚡` is
one column unit, a 4-byte `😀` two). -/
theorem claim_C3_center_position (t : List Nat) (chosen tokenByteLen : Nat) :
    (centerPointUtf16 t chosen tokenByteLen).row =
        (offsetToPointUtf16 t chosen).row ∧
      ((offsetToPointUtf16 t chosen).row =
          (offsetToPointUtf16 t (min (chosen + tokenByteLen) t.length)).row →
        (centerPointUtf16 t chosen tokenByteLen).column =
          ((offsetToPointUtf16 t chosen).column +
            (offsetToPointUtf16 t (min (chosen + tokenByteLen) t.length)).column) / 2) ∧
      ((offsetToPointUtf16 t chosen).row ≠
          (offsetToPointUtf16 t (min (chosen + tokenByteLen) t.length)).row →
        (centerPointUtf16 t chosen tokenByteLen).column =
          (offsetToPointUtf16 t chosen).column) ∧
      (offsetToPointUtf16 (utf8Bytes "⚡x") 3).column = 1 ∧
      (offsetToPointUtf16 (utf8Bytes "😀x") 4).column = 2 ∧
      (offsetToPointUtf16 (utf8Bytes "ab\nc") 4).row = 1 ∧
      (offsetToPointUtf16 (utf8Bytes "ab\nc") 4).column = 1 := by
  refine ⟨rfl, ?_, ?_, by decide, by decide, by decide, by decide⟩
  · intro h
    simp only [centerPointUtf16, if_pos h]
  · intro h
    simp only [centerPointUtf16, if_neg h]

/-- Witness for C3: a single-line span gets the floor-average column, a span
crossing a newline keeps its start column. -/
theorem claim_C3_witness :
    (centerPointUtf16 (utf8Bytes "abc") 0 2).column = 1 ∧
      (centerPointUtf16 (utf8Bytes "a\nb") 0 3).column = 0 := by
  constructor
  · exact ((claim_C3_center_position (utf8Bytes "abc") 0 2).2.1 (by decide)).trans
      (by decide)
  · exact ((claim_C3_center_position (utf8Bytes "a\nb") 0 3).2.2.1 (by decide)).trans
      (by decide)

theorem takeFiltered_all {p : OutlineItem × Option String → Bool}
    (hp : ∀ e, p e = true) :
    ∀ (n : Nat) (l : List (OutlineItem × Option String)),
      takeFiltered p n l = (l.take n, l.drop n) := by
  intro n
  induction n with
  | zero => intro l; simp [takeFiltered]
  | succ n ih =>
    intro l
    cases l with
    | nil => simp [takeFiltered]
    | cons x rest => simp [takeFiltered, hp x, ih rest]

theorem foldl_snd_count {α : Type} (f : String × Nat → α → String) :
    ∀ (l : List α) (acc : String × Nat),
      (l.foldl (fun acc e => (f acc e, acc.2 + 1)) acc).2 = acc.2 + l.length := by
  intro l
  induction l with
  | nil => intro acc; simp
  | cons x xs ih =>
    intro acc
    rw [List.foldl_cons, ih]
    simp
    omega

theorem renderEntries_snd (items : List (OutlineItem × Option String)) :
    (renderEntries items).2 = items.length := by
  have h := foldl_snd_count
    (fun acc e =>
      (let indented := acc.1 ++ String.mk (List.replicate e.1.depth ' ')
       let withText :=
         match e.2 with
         | some sig =>
           let sig2 := rustTrim (firstLine sig)
           if sig2 = "" then indented else indented ++ sig2
         | none => indented ++ e.1.text
       let startLine := e.1.rangeStart.row + 1
       let endLine := e.1.rangeEnd.row + 1
       if startLine = endLine then withText ++ (" [L" ++ toString startLine ++ "]\n")
       else
         withText ++ (" [L" ++ toString startLine ++ "-" ++ toString endLine ++ "]\n")))
    items ("", 0)
  simpa [renderEntries] using h

/-- Claim C8: the pagination footer of the outline renderer — for five items
with no filter, `offset = 0`, `results_per_page = 3` the output ends with the
next-page footer naming offset 3; with `offset = 3` it ends with the total
count footer naming 5 symbols. -/
theorem claim_C8_pagination_footer (e1 e2 e3 e4 e5 : OutlineItem × Option String) :
    (∃ s, renderOutline [e1, e2, e3, e4, e5] none 0 3 =
        s ++ "\nShowing symbols 1-3 (there were more symbols found; use offset: 3 to see next page)\n") ∧
    (∃ s, renderOutline [e1, e2, e3, e4, e5] none 3 3 =
        s ++ "\nShowing symbols 4-5 (total symbols: 5)\n") := by
  constructor
  · exact ⟨_, by
      simp only [renderOutline]
      rw [takeFiltered_all (fun e => rfl)]
      refine congrArg₂ (· ++ ·) rfl ?_
      rw [renderEntries_snd]
      simp
      rfl⟩
  · exact ⟨_, by
      simp only [renderOutline]
      rw [takeFiltered_all (fun e => rfl)]
      refine congrArg₂ (· ++ ·) rfl ?_
      rw [renderEntries_snd]
      simp
      rfl⟩

/-! ## UTF-8 boundary lemmas -/

theorem getD_append_left {l1 l2 : List Nat} {i : Nat} (h : i < l1.length) :
    (l1 ++ l2).getD i 0 = l1.getD i 0 := by
  rw [List.getD_eq_getElem?_getD, List.getD_eq_getElem?_getD,
    List.getElem?_append, if_pos h]

theorem getD_append_right {l1 l2 : List Nat} {i : Nat} (h : l1.length ≤ i) :
    (l1 ++ l2).getD i 0 = l2.getD (i - l1.length) 0 := by
  rw [List.getD_eq_getElem?_getD, List.getD_eq_getElem?_getD,
    List.getElem?_append, if_neg (by omega)]

theorem validUtf8_head_not_cont {b : Nat} {l : List Nat}
    (h : ValidUtf8 (b :: l)) : contByte b = false := by
  cases h with
  | cons b' tail rest hb _ _ _ => exact hb

theorem isCharBoundary_zero (t : List Nat) : isCharBoundary t 0 = true := by
  simp [isCharBoundary]

theorem isCharBoundary_length (t : List Nat) :
    isCharBoundary t t.length = true := by
  unfold isCharBoundary
  split
  · rfl
  · rw [if_pos rfl]

theorem isCharBoundary_le_length {t : List Nat} {i : Nat}
    (h : isCharBoundary t i = true) : i ≤ t.length := by
  unfold isCharBoundary at h
  split at h
  · omega
  · split at h
    · omega
    · split at h
      · omega
      · simp at h

theorem isCharBoundary_cases {t : List Nat} {i : Nat}
    (h : isCharBoundary t i = true) :
    i = 0 ∨ i = t.length ∨
      (i < t.length ∧ contByte (t.getD i 0) = false) := by
  unfold isCharBoundary at h
  split at h
  · exact Or.inl (by assumption)
  · split at h
    · exact Or.inr (Or.inl (by assumption))
    · split at h
      · rename_i h1 h2 h3
        refine Or.inr (Or.inr ⟨h3, ?_⟩)
        simpa using h
      · simp at h

theorem isCharBoundary_of_not_cont {t : List Nat} {i : Nat} (h1 : i < t.length)
    (h2 : contByte (t.getD i 0) = false) : isCharBoundary t i = true := by
  by_cases h0 : i = 0
  · subst h0
    exact isCharBoundary_zero t
  · by_cases hl : i = t.length
    · unfold isCharBoundary
      rw [if_neg h0, if_pos hl]
    · unfold isCharBoundary
      rw [if_neg h0, if_neg hl, if_pos h1]
      simp only [List.getD_eq_getElem?_getD] at h2
      simp [h2]

theorem validUtf8_boundary_split {t : List Nat} (h : ValidUtf8 t) :
    ∀ i, isCharBoundary t i = true →
      ValidUtf8 (t.take i) ∧ ValidUtf8 (t.drop i) := by
  induction h with
  | nil =>
    intro i hb
    constructor <;> simp [ValidUtf8.nil]
  | cons b tail rest hb hlen htail hrest ih =>
    intro i hb2
    rcases Nat.eq_zero_or_pos i with hi0 | hipos
    · subst hi0
      exact ⟨ValidUtf8.nil, ValidUtf8.cons b tail rest hb hlen htail hrest⟩
    · rcases isCharBoundary_cases hb2 with h0 | hlen2 | ⟨hlt, hcont⟩
      · omega
      · rw [hlen2, List.take_length, List.drop_length]
        exact ⟨ValidUtf8.cons b tail rest hb hlen htail hrest, ValidUtf8.nil⟩
      · have hout : tail.length + 1 ≤ i := by
          by_contra hc
          push_neg at hc
          have hin : i - 1 < tail.length := by omega
          have hgd : (b :: (tail ++ rest)).getD i 0 = tail.getD (i - 1) 0 := by
            obtain ⟨i', rfl⟩ : ∃ i', i = i' + 1 := ⟨i - 1, by omega⟩
            rw [List.getD_cons_succ]
            exact getD_append_left (by omega)
          rw [hgd] at hcont
          have hmem : tail.getD (i - 1) 0 ∈ tail := by
            rw [List.getD_eq_getElem?_getD, List.getElem?_eq_getElem hin,
              Option.getD_some]
            exact List.getElem_mem hin
          rw [htail _ hmem] at hcont
          simp at hcont
        obtain ⟨j, rfl⟩ : ∃ j, i = 1 + tail.length + j :=
          ⟨i - (1 + tail.length), by omega⟩
        have hjlt : j < rest.length := by
          simp only [List.length_cons, List.length_append] at hlt
          omega
        have hjrest : isCharBoundary rest j = true := by
          apply isCharBoundary_of_not_cont hjlt
          have hgd : (b :: (tail ++ rest)).getD (1 + tail.length + j) 0 =
              rest.getD j 0 := by
            have harith : 1 + tail.length + j = (tail.length + j) + 1 := by omega
            rw [harith, List.getD_cons_succ, getD_append_right (by omega)]
            congr 1
            omega
          rw [hgd] at hcont
          exact hcont
        obtain ⟨htake, hdrop⟩ := ih j hjrest
        constructor
        · have heq : (b :: (tail ++ rest)).take (1 + tail.length + j) =
              b :: (tail ++ rest.take j) := by
            have harith : 1 + tail.length + j = (tail.length + j) + 1 := by omega
            rw [harith, List.take_succ_cons]
            congr 1
            exact List.take_append j
          rw [heq]
          exact ValidUtf8.cons b tail (rest.take j) hb hlen htail htake
        · have heq : (b :: (tail ++ rest)).drop (1 + tail.length + j) =
              rest.drop j := by
            have harith : 1 + tail.length + j = (tail.length + j) + 1 := by omega
            rw [harith, List.drop_succ_cons]
            exact List.drop_append j
          rw [heq]
          exact hdrop

theorem isCharBoundary_lift (b : Nat) (tail rest : List Nat) {j : Nat}
    (hrest : ValidUtf8 rest) (hj : isCharBoundary rest j = true) :
    isCharBoundary (b :: (tail ++ rest)) (1 + tail.length + j) = true := by
  rcases isCharBoundary_cases hj with hj0 | hjlen | ⟨hjlt, hjcont⟩
  · subst hj0
    cases hre : rest with
    | nil =>
      have harith : 1 + tail.length + 0 = (b :: (tail ++ ([] : List Nat))).length := by
        simp only [List.length_cons, List.length_append, List.length_nil]
        omega
      rw [harith]
      exact isCharBoundary_length _
    | cons r0 rs =>
      apply isCharBoundary_of_not_cont
      · simp only [List.length_cons, List.length_append]
        omega
      · have hgd : (b :: (tail ++ r0 :: rs)).getD (1 + tail.length + 0) 0 = r0 := by
          have harith : 1 + tail.length + 0 = tail.length + 1 := by omega
          rw [harith, List.getD_cons_succ, getD_append_right (by omega)]
          simp
        rw [hgd]
        have : contByte r0 = false := validUtf8_head_not_cont (hre ▸ hrest)
        exact this
  · subst hjlen
    have harith : 1 + tail.length + rest.length =
        (b :: (tail ++ rest)).length := by
      simp only [List.length_cons, List.length_append]
      omega
    rw [harith]
    exact isCharBoundary_length _
  · apply isCharBoundary_of_not_cont
    · simp only [List.length_cons, List.length_append]
      omega
    · have hgd : (b :: (tail ++ rest)).getD (1 + tail.length + j) 0 =
          rest.getD j 0 := by
        have harith : 1 + tail.length + j = (tail.length + j) + 1 := by omega
        rw [harith, List.getD_cons_succ, getD_append_right (by omega)]
        congr 1
        omega
      rw [hgd]
      exact hjcont

theorem validUtf8_isPrefix_boundary {p : List Nat} (hp : ValidUtf8 p) :
    ∀ s, ValidUtf8 s → p <+: s → isCharBoundary s p.length = true := by
  induction hp with
  | nil =>
    intro s _ _
    exact isCharBoundary_zero s
  | cons b tailp restp hb hlenp htailp hrestp ih =>
    intro s hs hpre
    cases hs with
    | nil =>
      exfalso
      have := hpre.length_le
      simp at this
    | cons b' tails rests hb' hlens htails hrests =>
      obtain ⟨ext, hext⟩ := hpre
      have hcons := hext
      rw [List.cons_append] at hcons
      injection hcons with hbb htt
      subst hbb
      have hlen_eq : tailp.length = tails.length := by
        rw [hlenp, hlens]
      rw [List.append_assoc] at htt
      obtain ⟨htp, hrp⟩ := List.append_inj htt hlen_eq
      subst htp
      have hpre' : restp <+: rests := ⟨ext, hrp⟩
      have hbnd := ih rests hrests hpre'
      have hlift := isCharBoundary_lift b tailp rests hrests hbnd
      have harith : (b :: (tailp ++ restp)).length =
          1 + tailp.length + restp.length := by
        simp
        omega
      rw [harith]
      exact hlift

theorem isCharBoundary_transfer {t : List Nat} {i j : Nat}
    (hi : isCharBoundary t i = true) (hj : isCharBoundary (t.drop i) j = true) :
    isCharBoundary t (i + j) = true := by
  have hile := isCharBoundary_le_length hi
  rcases isCharBoundary_cases hj with hj0 | hjlen | ⟨hjlt, hjcont⟩
  · subst hj0
    simpa using hi
  · subst hjlen
    rw [List.length_drop]
    have : i + (t.length - i) = t.length := by omega
    rw [this]
    exact isCharBoundary_length t
  · rw [List.length_drop] at hjlt
    apply isCharBoundary_of_not_cont (by omega)
    have hgd : (t.drop i).getD j 0 = t.getD (i + j) 0 := by
      rw [List.getD_eq_getElem?_getD, List.getD_eq_getElem?_getD,
        List.getElem?_drop]
    rw [hgd] at hjcont
    exact hjcont

theorem occurrence_start_boundary {t p : List Nat}
    (hp : ValidUtf8 p) {i : Nat} (hne : p ≠ []) (hpre : p <+: t.drop i)
    (hfit : i + p.length ≤ t.length) : isCharBoundary t i = true := by
  obtain ⟨ph, pt, rfl⟩ := List.exists_cons_of_ne_nil hne
  rcases Nat.eq_zero_or_pos i with hi0 | hipos
  · subst hi0
    exact isCharBoundary_zero t
  · have hilt : i < t.length := by
      simp only [List.length_cons] at hfit
      omega
    apply isCharBoundary_of_not_cont hilt
    have hgd : t.getD i 0 = ph := by
      obtain ⟨ext, hext⟩ := hpre
      rw [List.getD_eq_getElem?_getD]
      have hdr := List.getElem?_drop t i 0
      rw [Nat.add_zero] at hdr
      have h0 : t[i]? = some ph := by
        rw [← hdr, ← hext]
        simp
      rw [h0]
      rfl
    rw [hgd]
    exact validUtf8_head_not_cont hp

theorem contByte_false_of_lt {b : Nat} (h : b < 0x80) : contByte b = false := by
  simp only [contByte]
  simp
  omega

theorem contByte_false_of_ge {b : Nat} (h : 0xC0 ≤ b) : contByte b = false := by
  simp only [contByte]
  simp
  omega

theorem contByte_true_of_range {b : Nat} (h1 : 0x80 ≤ b) (h2 : b < 0xC0) :
    contByte b = true := by
  simp only [contByte]
  simp
  omega

theorem validUtf8_utf8EncodeChar_append (c : Char) {l : List Nat}
    (hl : ValidUtf8 l) : ValidUtf8 (utf8EncodeChar c ++ l) := by
  simp only [utf8EncodeChar]
  split
  · rename_i hv
    have h := ValidUtf8.cons c.toNat [] l
      (contByte_false_of_lt hv)
      (by simp only [List.length_nil, charLen]; rw [if_pos hv])
      (by simp) hl
    simpa using h
  · split
    · rename_i hv1 hv2
      have hd : c.toNat / 0x40 < 0x20 := Nat.div_lt_of_lt_mul (by omega)
      have hm : c.toNat % 0x40 < 0x40 := Nat.mod_lt _ (by omega)
      have h := ValidUtf8.cons (0xC0 + c.toNat / 0x40) [0x80 + c.toNat % 0x40] l
        (contByte_false_of_ge (by omega))
        (by
          simp only [List.length_cons, List.length_nil, charLen]
          rw [if_neg (by omega), if_pos (by omega)])
        (by
          intro x hx
          simp at hx
          subst hx
          exact contByte_true_of_range (by omega) (by omega)) hl
      simpa using h
    · split
      · rename_i hv1 hv2 hv3
        have hd : c.toNat / 0x1000 < 0x10 := Nat.div_lt_of_lt_mul (by omega)
        have hm1 : c.toNat / 0x40 % 0x40 < 0x40 := Nat.mod_lt _ (by omega)
        have hm2 : c.toNat % 0x40 < 0x40 := Nat.mod_lt _ (by omega)
        have h := ValidUtf8.cons (0xE0 + c.toNat / 0x1000)
          [0x80 + c.toNat / 0x40 % 0x40, 0x80 + c.toNat % 0x40] l
          (contByte_false_of_ge (by omega))
          (by
            simp only [List.length_cons, List.length_nil, charLen]
            rw [if_neg (by omega), if_neg (by omega), if_pos (by omega)])
          (by
            intro x hx
            simp at hx
            rcases hx with hx | hx <;> subst hx <;>
              exact contByte_true_of_range (by omega) (by omega)) hl
        simpa using h
      · rename_i hv1 hv2 hv3
        have hm1 : c.toNat / 0x1000 % 0x40 < 0x40 := Nat.mod_lt _ (by omega)
        have hm2 : c.toNat / 0x40 % 0x40 < 0x40 := Nat.mod_lt _ (by omega)
        have hm3 : c.toNat % 0x40 < 0x40 := Nat.mod_lt _ (by omega)
        have h := ValidUtf8.cons (0xF0 + c.toNat / 0x40000)
          [0x80 + c.toNat / 0x1000 % 0x40, 0x80 + c.toNat / 0x40 % 0x40,
            0x80 + c.toNat % 0x40] l
          (contByte_false_of_ge (by omega))
          (by
            simp only [List.length_cons, List.length_nil, charLen]
            rw [if_neg (by omega), if_neg (by omega), if_neg (by omega)])
          (by
            intro x hx
            simp at hx
            rcases hx with hx | hx | hx <;> subst hx <;>
              exact contByte_true_of_range (by omega) (by omega)) hl
        simpa using h

theorem validUtf8_utf8Bytes (s : String) : ValidUtf8 (utf8Bytes s) := by
  unfold utf8Bytes
  induction s.data with
  | nil => exact ValidUtf8.nil
  | cons c cs ih =>
    simp only [List.map_cons, List.flatten_cons]
    exact validUtf8_utf8EncodeChar_append c ih

theorem findBoundaryDown_le (t : List Nat) (j : Nat) :
    findBoundaryDown t j ≤ j := by
  induction j with
  | zero => simp [findBoundaryDown]
  | succ j ih =>
    unfold findBoundaryDown
    split
    · omega
    · omega

theorem findBoundaryDown_boundary (t : List Nat) (j : Nat) :
    isCharBoundary t (findBoundaryDown t j) = true := by
  induction j with
  | zero => simpa [findBoundaryDown] using isCharBoundary_zero t
  | succ j ih =>
    unfold findBoundaryDown
    split
    · assumption
    · exact ih

theorem findBoundaryDown_maximal (t : List Nat) (j : Nat) :
    ∀ k, findBoundaryDown t j < k → k ≤ j → isCharBoundary t k = false := by
  induction j with
  | zero =>
    intro k h1 h2
    simp [findBoundaryDown] at h1
    omega
  | succ j ih =>
    intro k h1 h2
    unfold findBoundaryDown at h1
    split at h1
    · omega
    · rcases Nat.lt_or_ge k (j + 1) with hk | hk
      · exact ih k h1 (by omega)
      · have hkj : k = j + 1 := by omega
        subst hkj
        rename_i hnb
        simpa using hnb

/-- Claim C10: safety of the resolved context span — an occurrence found by
the phase-1 scan fits inside the snapshot (so the clamp of the span end never
shortens it), both span endpoints are valid character boundaries, the phase-2
slice is exactly the context bytes, and a context running past the end of the
document yields no occurrence at all. -/
theorem claim_C10_slice_safety (text ctx : String) (hctx : ctx ≠ "") (off : Nat)
    (hmem : off ∈ matchIndices (utf8Bytes text) (utf8Bytes ctx)) :
    off + (utf8Bytes ctx).length ≤ (utf8Bytes text).length ∧
      min (off + (utf8Bytes ctx).length) (utf8Bytes text).length =
        off + (utf8Bytes ctx).length ∧
      isCharBoundary (utf8Bytes text) off = true ∧
      isCharBoundary (utf8Bytes text) (off + (utf8Bytes ctx).length) = true ∧
      ((utf8Bytes text).drop off).take (utf8Bytes ctx).length = utf8Bytes ctx ∧
      (∀ off2, (utf8Bytes text).length < off2 + (utf8Bytes ctx).length →
        off2 ∉ matchIndices (utf8Bytes text) (utf8Bytes ctx)) := by
  obtain ⟨m, ms, hms⟩ := List.exists_cons_of_ne_nil (utf8Bytes_ne_nil hctx)
  have hocc := matchIndices_mem_occurs (hms ▸ hmem)
  rw [← hms] at hocc
  obtain ⟨hpre, hfit⟩ := hocc
  have hvt := validUtf8_utf8Bytes text
  have hvc := validUtf8_utf8Bytes ctx
  have hstart : isCharBoundary (utf8Bytes text) off = true :=
    occurrence_start_boundary hvc (by rw [hms]; simp) hpre hfit
  refine ⟨hfit, by omega, hstart, ?_, ?_, ?_⟩
  · have hdropvalid := (validUtf8_boundary_split hvt off hstart).2
    have hbnd := validUtf8_isPrefix_boundary hvc _ hdropvalid hpre
    exact isCharBoundary_transfer hstart hbnd
  · exact ( List.prefix_iff_eq_take.mp hpre).symm
  · intro off2 hbig hmem2
    have hfit2 := (matchIndices_mem_occurs (hms ▸ hmem2)).2
    rw [← hms] at hfit2
    omega

/-- Witness for C10: the single occurrence of `"ab"` in `"xab"` starts on a
character boundary and slicing recovers exactly the context bytes. -/
theorem claim_C10_witness :
    isCharBoundary (utf8Bytes "xab") 1 = true ∧
      ((utf8Bytes "xab").drop 1).take 2 = utf8Bytes "ab" := by
  have h := claim_C10_slice_safety "xab" "ab" (by decide) 1 (by decide)
  exact ⟨h.2.2.1, h.2.2.2.2.1⟩

/-- Claim C7: the large-document prefix fallback — above the size threshold
with no outline items the selector returns `is_outline = false` and a header
followed by the document prefix cut at the greatest character boundary at or
before the 1024-byte cutoff; on valid UTF-8 input the cut never splits a
multi-byte character (the prefix stays valid UTF-8). -/
theorem claim_C7_prefix_fallback (text : List Nat) (path : Option String)
    (hbig : AUTO_OUTLINE_SIZE < text.length) :
    (getBufferContentOrOutline text [] path).is_outline = false ∧
      (getBufferContentOrOutline text [] path).text =
        utf8Bytes (firstKbHeader path) ++
          text.take (min text.length (floorCharBoundary text 1024)) ∧
      min text.length (floorCharBoundary text 1024) ≤ 1024 ∧
      isCharBoundary text (min text.length (floorCharBoundary text 1024)) = true ∧
      (∀ j, min text.length (floorCharBoundary text 1024) < j →
        j ≤ min 1024 text.length → isCharBoundary text j = false) ∧
      (ValidUtf8 text →
        ValidUtf8 (text.take (min text.length (floorCharBoundary text 1024)))) := by
  have hfb_le : floorCharBoundary text 1024 ≤ min 1024 text.length := by
    unfold floorCharBoundary
    exact findBoundaryDown_le _ _
  have hmin : min text.length (floorCharBoundary text 1024) =
      floorCharBoundary text 1024 := by omega
  have hbound : isCharBoundary text (floorCharBoundary text 1024) = true := by
    unfold floorCharBoundary
    exact findBoundaryDown_boundary _ _
  refine ⟨?_, ?_, by omega, ?_, ?_, ?_⟩
  · unfold getBufferContentOrOutline
    rw [if_pos hbig,
      if_pos (show ([] : List (OutlineItem × Option String)).isEmpty = true from rfl)]
  · unfold getBufferContentOrOutline
    rw [if_pos hbig,
      if_pos (show ([] : List (OutlineItem × Option String)).isEmpty = true from rfl)]
  · rw [hmin]
    exact hbound
  · intro j h1 h2
    rw [hmin] at h1
    unfold floorCharBoundary at h1
    exact findBoundaryDown_maximal text (min 1024 text.length) j h1 h2
  · intro hv
    rw [hmin]
    exact (validUtf8_boundary_split hv _ hbound).1

/-- Witness for C7: a 16385-byte ASCII document with no outline items is
returned as truncated content, not an outline. -/
theorem claim_C7_witness :
    (getBufferContentOrOutline (List.replicate 16385 97) [] none).is_outline =
      false := by
  have hbig : AUTO_OUTLINE_SIZE < (List.replicate 16385 (97 : Nat)).length := by
    rw [List.length_replicate]
    decide
  exact (claim_C7_prefix_fallback (List.replicate 16385 97) none hbig).1
